import Mathlib

/-!
Verification of the moderation bot in `src/cn.py` (a Discord guard bot).

The Python source is shallowly embedded as follows.

* Account ids and timestamps are `Int` (timestamps measured in seconds;
  `datetime` subtraction `.total_seconds()` becomes `Int` subtraction).
* The fallible platform API is modelled with an explicit failure oracle:
  each `await`-ed platform mutation or query takes an `Option Exn`
  argument saying whether that call raises (`Forbidden`, `NotFound`, or a
  generic `HTTPException`).  In `discord.py`, `Forbidden` and `NotFound`
  are subclasses of `HTTPException`, so an `except HTTPException` clause
  catches all three kinds.
* A function that, in Python, could let an exception escape is given the
  type `Except Exn _`; `try`/`except` blocks become matches on the
  failure oracle whose branches mirror the `except` clauses.
* The platform calls a handler issues (message delete, timeout, kick,
  webhook delete) are collected in a `List PlatformCall` trace; a call
  that is issued and then raises still appears in the trace.
* `str(datetime)` windows: the invite window and audit freshness checks
  compare `Int` ages against the constants from the source.
-/

abbrev AccountId := Int

/-- WHITELIST_IDS: the fixed trusted-account set (cn.py lines 19-23). -/
def WHITELIST_IDS : List AccountId :=
  [662596869221908480, 843180408152784936,
   1271186898408308789, 1197862712408014909,
   557628352828014614, 651095740390834176,
   235148962103951360]

/-- INVITE_WINDOW_SECONDS = 15 (cn.py line 32). -/
def INVITE_WINDOW_SECONDS : Int := 15

/-- INVITE_MAX_IN_WINDOW = 5 (cn.py line 33). -/
def INVITE_MAX_IN_WINDOW : Nat := 5

/-- TIMEOUT_DURATION = timedelta(hours=1) (cn.py line 34), in seconds. -/
def TIMEOUT_DURATION : Int := 3600

/-- WEBHOOK_MAX_ATTEMPTS = 3 (cn.py line 37). -/
def WEBHOOK_MAX_ATTEMPTS : Nat := 3

/-- Capacity of the per-user invite deque: `deque(maxlen=50)` (cn.py line 62). -/
def DEQUE_MAXLEN : Nat := 50

/-- is_whitelisted (cn.py lines 73-74). -/
def is_whitelisted (uid : AccountId) : Bool := WHITELIST_IDS.contains uid

/-- The exception kinds raised by the platform API that the source
handles: `Forbidden`, `NotFound` and other `HTTPException`s. -/
inductive Exn
  | forbidden
  | notFound
  | httpError
  deriving DecidableEq, Repr

/-- A platform mutation issued by the bot (the observable effect trace). -/
inductive PlatformCall
  | deleteMessage
  | timeout (target : AccountId) (durationSeconds : Int) (reason : String)
  | kick (target : AccountId) (reason : String)
  | deleteWebhook (webhookId : Int)
  deriving DecidableEq, Repr

/-- A guild, abstracted to its current member set (`guild.get_member`
is the only membership operation the source uses). -/
structure Guild where
  memberIds : List AccountId
  deriving DecidableEq, Repr

/-- guild.get_member: returns the member when `uid` is a current member,
`None` otherwise. -/
def Guild.get_member (g : Guild) (uid : AccountId) : Option AccountId :=
  if g.memberIds.contains uid then some uid else none

/-- safe_kick (cn.py lines 76-84): kick `member` only if it is non-None
and still a member of the guild; `Forbidden` and `HTTPException` from the
kick call are caught and logged.  The trace records the kick call that
was issued (also when it then raised). -/
def safe_kick (g : Guild) (memberOpt : Option AccountId) (reason : String)
    (kickExn : Option Exn) : Except Exn (List PlatformCall) :=
  match memberOpt with
  | none => .ok []
  | some mid =>
    if (g.get_member mid).isSome then
      match kickExn with
      | none => .ok [PlatformCall.kick mid reason]
      | some Exn.forbidden => .ok [PlatformCall.kick mid reason]
      | some Exn.notFound => .ok [PlatformCall.kick mid reason]
      | some Exn.httpError => .ok [PlatformCall.kick mid reason]
    else .ok []

/-- try_timeout (cn.py lines 86-97): issue `member.edit(timed_out_until=...)`
and report success; `Forbidden` and `HTTPException` (which includes
`NotFound`) are caught and turned into `False`. -/
def try_timeout (mid : AccountId) (durationSeconds : Int) (reason : String)
    (tExn : Option Exn) : Except Exn (Bool × List PlatformCall) :=
  match tExn with
  | none => .ok (true, [PlatformCall.timeout mid durationSeconds reason])
  | some Exn.forbidden => .ok (false, [PlatformCall.timeout mid durationSeconds reason])
  | some Exn.notFound => .ok (false, [PlatformCall.timeout mid durationSeconds reason])
  | some Exn.httpError => .ok (false, [PlatformCall.timeout mid durationSeconds reason])

/-- The `message.delete()` call of on_message (cn.py lines 149-155):
`Forbidden` and `NotFound` pass, other `HTTPException`s are logged; the
delete call is issued in every case. -/
def deleteMessageCall (dExn : Option Exn) : Except Exn (List PlatformCall) :=
  match dExn with
  | none => .ok [PlatformCall.deleteMessage]
  | some Exn.forbidden => .ok [PlatformCall.deleteMessage]
  | some Exn.notFound => .ok [PlatformCall.deleteMessage]
  | some Exn.httpError => .ok [PlatformCall.deleteMessage]

/-- An audit-log entry as find_audit_actor reads it: `entry.created_at`
(optional), `getattr(entry.target, "id", None)`, and `entry.user`
(optional). -/
structure AuditEntry where
  created_at : Option Int
  target_id : Option Int
  user_id : Option AccountId
  deriving DecidableEq, Repr

/-- The staleness test of find_audit_actor (cn.py line 119): an entry is
skipped when it has a creation time and its age exceeds `within_seconds`. -/
def entryStale (now withinSeconds : Int) (e : AuditEntry) : Bool :=
  match e.created_at with
  | some c => decide (withinSeconds < now - c)
  | none => false

/-- The target test of find_audit_actor (cn.py lines 121-125): when a
target id is requested, the entry's target id must equal it. -/
def targetPasses (target_id : Option Int) (e : AuditEntry) : Bool :=
  match target_id with
  | none => true
  | some t => decide (e.target_id = some t)

/-- The scan loop of find_audit_actor (cn.py lines 117-126): walk the
page newest-first, skip stale entries and target mismatches, and return
`entry.user` of the first survivor. -/
def scanAuditEntries (now withinSeconds : Int) (target_id : Option Int) :
    List AuditEntry → Option AccountId
  | [] => none
  | e :: rest =>
    if entryStale now withinSeconds e then
      scanAuditEntries now withinSeconds target_id rest
    else if targetPasses target_id e then e.user_id
    else scanAuditEntries now withinSeconds target_id rest

/-- find_audit_actor (cn.py lines 99-131), scan part.  The audit-log
query may fail (`Forbidden` / `HTTPException`), modelled by `auditExn`;
both failures yield `None`.  (The rate-limit of lines 109-114 affects
timing only and is modelled separately by `auditRateLimitDelay`.) -/
def find_audit_actor (entries : List AuditEntry) (auditExn : Option Exn)
    (now : Int) (target_id : Option Int) (withinSeconds : Int) : Option AccountId :=
  match auditExn with
  | some Exn.forbidden => none
  | some Exn.notFound => none
  | some Exn.httpError => none
  | none => scanAuditEntries now withinSeconds target_id entries

/-- The audit rate limiter of find_audit_actor (cn.py lines 109-114) for
one fixed key.  `stored` is `last_audit_lookup[key]` (absent at first).
The lookup arriving at `now` sleeps 1 second when the stored timestamp is
under 1 second old, and `now` (the pre-sleep arrival time) is stored.
Returns the time at which the audit query is then issued. -/
def auditRateLimitDelay (stored : Option ℚ) (now : ℚ) : ℚ :=
  match stored with
  | some s => if now - s < 1 then now + 1 else now
  | none => now

/-- Successive lookups for one key, given their arrival times: the list
of issue times.  After a lookup arriving at `t`, the stored timestamp for
the key is `t`. -/
def runThrottle : Option ℚ → List ℚ → List ℚ
  | _, [] => []
  | stored, t :: rest => auditRateLimitDelay stored t :: runThrottle (some t) rest

/-- The purge loop of on_message (cn.py lines 164-165): pop timestamps
older than INVITE_WINDOW_SECONDS from the front of the deque. -/
def purgeWindow (now : Int) : List Int → List Int
  | [] => []
  | t :: rest =>
    if INVITE_WINDOW_SECONDS < now - t then purgeWindow now rest
    else t :: rest

/-- Append to a `deque(maxlen=DEQUE_MAXLEN)`: when full, the oldest entry
is evicted (cn.py line 62 and 161). -/
def dequeAppend (dq : List Int) (x : Int) : List Int :=
  if DEQUE_MAXLEN ≤ dq.length then dq.drop 1 ++ [x] else dq ++ [x]

/-- One invite post at time `now`: append then purge (cn.py lines 159-165). -/
def stepPost (dq : List Int) (now : Int) : List Int :=
  purgeWindow now (dequeAppend dq now)

/-- The deque contents after a sequence of invite posts, starting empty. -/
def runPosts (ts : List Int) : List Int := ts.foldl stepPost []

/-- The threshold test of on_message (cn.py line 167):
`len(dq) >= INVITE_MAX_IN_WINDOW`. -/
def is_over_threshold (dq : List Int) : Bool := INVITE_MAX_IN_WINDOW ≤ dq.length

/-- Membership in the trailing window: `t` is within
INVITE_WINDOW_SECONDS of the reference time `m`. -/
def inWin (m t : Int) : Bool := decide (m - t ≤ INVITE_WINDOW_SECONDS)

/-- The last `n` elements of a list. -/
def lastN (n : Nat) (xs : List Int) : List Int := xs.drop (xs.length - n)

/-- The in-memory moderation state: per-user invite deques and per-user
webhook attempt counters (cn.py lines 62, 65). -/
structure ModState where
  invite_events : AccountId → List Int
  webhook_attempts : AccountId → Nat

/-- The timeout reason built in on_message (cn.py line 170). -/
def inviteReason : String := "Invite-Spam: ≥5 in 15s"

/-- on_message (cn.py lines 141-173).  Inputs: the state, the optional
guild, the author id, `message.author.bot`, whether INVITE_REGEX matched
`message.content` (the only fact about the content the source uses), the
current time, and the failure oracles of the delete, timeout and kick
calls.  Returns the new state and the trace of issued platform calls. -/
def on_message (st : ModState) (g : Option Guild) (authorId : AccountId)
    (authorBot hasInvite : Bool) (now : Int)
    (dExn tExn kExn : Option Exn) : Except Exn (ModState × List PlatformCall) :=
  if authorBot then .ok (st, [])
  else
    match g with
    | none => .ok (st, [])
    | some guild =>
      if hasInvite then
        match deleteMessageCall dExn with
        | .error e => .error e
        | .ok del =>
          if is_whitelisted authorId then .ok (st, del)
          else
            let dq := stepPost (st.invite_events authorId) now
            let st' : ModState :=
              ⟨Function.update st.invite_events authorId dq, st.webhook_attempts⟩
            if INVITE_MAX_IN_WINDOW ≤ dq.length then
              match guild.get_member authorId with
              | none => .ok (st', del)
              | some m =>
                match try_timeout m TIMEOUT_DURATION inviteReason tExn with
                | .error e => .error e
                | .ok res =>
                  if res.1 then .ok (st', del ++ res.2)
                  else
                    match safe_kick guild (some m) inviteReason kExn with
                    | .error e => .error e
                    | .ok kc => .ok (st', del ++ res.2 ++ kc)
            else .ok (st', del)
      else .ok (st, [])

/-- A sequence of invite-bearing messages from one non-bot author in one
guild, processed in order by on_message. -/
def runInviteSequence (g : Guild) (a : AccountId) (dExn tExn kExn : Option Exn) :
    ModState → List Int → Except Exn (ModState × List (List PlatformCall))
  | st, [] => .ok (st, [])
  | st, t :: rest =>
    match on_message st (some g) a false true t dExn tExn kExn with
    | .error e => .error e
    | .ok (st1, tr) =>
      match runInviteSequence g a dExn tExn kExn st1 rest with
      | .error e => .error e
      | .ok (st2, trs) => .ok (st2, tr :: trs)

/-- The shared shape of on_guild_channel_delete, on_guild_role_delete,
on_member_ban and on_member_remove (cn.py lines 189-228): attribute the
action via the audit log and kick the untrusted actor if still present. -/
def auditKickHandler (g : Guild) (entries : List AuditEntry) (auditExn : Option Exn)
    (now : Int) (targetId : Int) (reason : String) (kExn : Option Exn) :
    Except Exn (List PlatformCall) :=
  match find_audit_actor entries auditExn now (some targetId) 20 with
  | none => .ok []
  | some actorId =>
    if is_whitelisted actorId then .ok []
    else
      match g.get_member actorId with
      | none => .ok []
      | some m => safe_kick g (some m) reason kExn

/-- on_member_join (cn.py lines 175-187): when a bot joins, attribute the
bot_add, and if the inviter is untrusted, kick the bot and then the
inviter. -/
def on_member_join (g : Guild) (joinerId : AccountId) (joinerBot : Bool)
    (entries : List AuditEntry) (auditExn : Option Exn) (now : Int)
    (k1 k2 : Option Exn) : Except Exn (List PlatformCall) :=
  if joinerBot then
    match find_audit_actor entries auditExn now (some joinerId) 20 with
    | none => .ok []
    | some actorId =>
      if is_whitelisted actorId then .ok []
      else
        match safe_kick g (some joinerId) "Nicht-whitelisteter Bot-Invite" k1 with
        | .error e => .error e
        | .ok c1 =>
          match g.get_member actorId with
          | none => .ok c1
          | some m =>
            match safe_kick g (some m) "Bot-Invite ohne Whitelist" k2 with
            | .error e => .error e
            | .ok c2 => .ok (c1 ++ c2)
  else .ok []

/-- A webhook_create audit entry as on_webhooks_update reads it
(cn.py lines 243-251): creation time, `entry.user`, and the id of the
target webhook (`None` when `entry.target` is absent). -/
structure WebhookEntry where
  created_at : Option Int
  user_id : Option AccountId
  target_webhook_id : Option Int
  deriving DecidableEq, Repr

/-- Per-entry environment of on_webhooks_update: the clock read for this
iteration, the webhook listing of the triggering channel, the listings of
the guild's text channels for the fallback search, and the kick oracle.
A failed delete call (`Forbidden` / `HTTPException`) is caught and leaves
no observable state, so it needs no oracle field. -/
structure EntryEnv where
  now : Int
  channelHooks : Except Exn (List Int)
  guildChannelHooks : List (Except Exn (List Int))
  kickExn : Option Exn

/-- The freshness test of on_webhooks_update (cn.py line 246): entries
older than 30 seconds are skipped. -/
def webhookEntryStale (now : Int) (e : WebhookEntry) : Bool :=
  match e.created_at with
  | some c => decide (30 < now - c)
  | none => false

/-- The fallback search over guild.text_channels (cn.py lines 262-273):
a `Forbidden` from one channel's webhook listing is skipped; other
`HTTPException`s propagate to the surrounding try. -/
def searchGuildChannels (whId : Option Int) :
    List (Except Exn (List Int)) → Except Exn (Option Int)
  | [] => .ok none
  | (Except.error Exn.forbidden) :: rest => searchGuildChannels whId rest
  | (Except.error Exn.notFound) :: _ => .error Exn.notFound
  | (Except.error Exn.httpError) :: _ => .error Exn.httpError
  | (Except.ok ws) :: rest =>
    match ws.find? (fun w => decide (whId = some w)) with
    | some w => .ok (some w)
    | none => searchGuildChannels whId rest

/-- Locating the offending webhook (cn.py lines 258-273): search the
triggering channel's webhooks first, then all text channels. -/
def locateWebhook (env : EntryEnv) (whId : Option Int) : Except Exn (Option Int) :=
  match env.channelHooks with
  | .error e => .error e
  | .ok hooks =>
    match hooks.find? (fun w => decide (whId = some w)) with
    | some w => .ok (some w)
    | none => searchGuildChannels whId env.guildChannelHooks

/-- The guarded locate-and-delete block (cn.py lines 257-280): all
failures of the lookup and of the delete call are caught (`Forbidden`,
`HTTPException`); the delete call appears in the trace when the webhook
was located. -/
def tryDeleteWebhook (env : EntryEnv) (whId : Option Int) : List PlatformCall :=
  match locateWebhook env whId with
  | .error Exn.forbidden => []
  | .error Exn.notFound => []
  | .error Exn.httpError => []
  | .ok none => []
  | .ok (some w) => [PlatformCall.deleteWebhook w]

/-- The kick reason of the webhook escalation (cn.py line 287). -/
def webhookKickReason : String := "Mehrfach unzulässige Webhook-Erstellung"

/-- Counting a webhook violation (cn.py lines 282-289): increment the
actor's counter; at WEBHOOK_MAX_ATTEMPTS, kick the actor if still a
member and reset the counter to 0. -/
def countWebhookViolation (g : Guild) (st : AccountId → Nat) (actorId : AccountId)
    (kExn : Option Exn) : Except Exn ((AccountId → Nat) × List PlatformCall) :=
  let st1 := Function.update st actorId (st actorId + 1)
  if WEBHOOK_MAX_ATTEMPTS ≤ st1 actorId then
    match g.get_member actorId with
    | some m =>
      match safe_kick g (some m) webhookKickReason kExn with
      | .error e => .error e
      | .ok calls => .ok (Function.update st1 actorId 0, calls)
    | none => .ok (Function.update st1 actorId 0, [])
  else .ok (st1, [])

/-- Processing one webhook_create audit entry (cn.py lines 243-289):
skip stale entries, entries without an actor or target, and trusted
actors; otherwise attempt to locate and delete the webhook, then count
the violation. -/
def processWebhookEntry (g : Guild) (st : AccountId → Nat) (e : WebhookEntry)
    (env : EntryEnv) : Except Exn ((AccountId → Nat) × List PlatformCall) :=
  if webhookEntryStale env.now e then .ok (st, [])
  else
    match e.user_id, e.target_webhook_id with
    | none, _ => .ok (st, [])
    | some _, none => .ok (st, [])
    | some actorId, some whId =>
      if is_whitelisted actorId then .ok (st, [])
      else
        let delCalls := tryDeleteWebhook env (some whId)
        match countWebhookViolation g st actorId env.kickExn with
        | .error ex => .error ex
        | .ok (st', kc) => .ok (st', delCalls ++ kc)

/-- The loop of on_webhooks_update over the audit page. -/
def processWebhookEntries (g : Guild) :
    (AccountId → Nat) × List PlatformCall → List (WebhookEntry × EntryEnv) →
    Except Exn ((AccountId → Nat) × List PlatformCall)
  | acc, [] => .ok acc
  | (st, calls), (e, env) :: rest =>
    match processWebhookEntry g st e env with
    | .error ex => .error ex
    | .ok (st', cs) => processWebhookEntries g (st', calls ++ cs) rest

/-- on_webhooks_update (cn.py lines 230-294): list the recent
webhook_create audit entries and process each; a failure of the audit
listing itself is caught by the outer try and leaves the state unchanged. -/
def on_webhooks_update (g : Guild) (st : AccountId → Nat)
    (listing : Except Exn (List (WebhookEntry × EntryEnv))) :
    (AccountId → Nat) × List PlatformCall :=
  match listing with
  | .error Exn.forbidden => (st, [])
  | .error Exn.notFound => (st, [])
  | .error Exn.httpError => (st, [])
  | .ok entries =>
    match processWebhookEntries g (st, []) entries with
    | .error _ => (st, [])
    | .ok res => res

/-- A platform call is membership-sound for guild `g` when, if it is a
timeout or a kick, its target is a current member of `g`. -/
def punishTargetsMember (g : Guild) : PlatformCall → Prop
  | PlatformCall.timeout t _ _ => g.memberIds.contains t = true
  | PlatformCall.kick t _ => g.memberIds.contains t = true
  | _ => True

/-- The delete call always returns normally and issues the delete. -/
theorem deleteMessageCall_ok (dExn : Option Exn) :
    deleteMessageCall dExn = .ok [PlatformCall.deleteMessage] := by
  rcases dExn with _ | e
  · rfl
  · cases e <;> rfl

/-- try_timeout always returns normally; it reports success exactly when
the edit call did not raise, and always issues the timeout call. -/
theorem try_timeout_ok (mid : AccountId) (d : Int) (r : String) (tExn : Option Exn) :
    try_timeout mid d r tExn = .ok (tExn.isNone, [PlatformCall.timeout mid d r]) := by
  rcases tExn with _ | e
  · rfl
  · cases e <;> rfl

/-- safe_kick always returns normally; it issues the kick exactly when
the target is still a member. -/
theorem safe_kick_ok (g : Guild) (m : Option AccountId) (r : String) (e : Option Exn) :
    safe_kick g m r e =
      .ok (match m with
           | none => []
           | some mid =>
             if (g.get_member mid).isSome then [PlatformCall.kick mid r] else []) := by
  rcases m with _ | mid
  · rfl
  · rcases e with _ | ex
    · simp only [safe_kick]
      split <;> rfl
    · cases ex <;> (simp only [safe_kick]; split <;> rfl)

/-- C9: a message from a bot author, or a message outside a guild, is
ignored entirely: no platform call is issued, nothing is recorded in any
invite window, and the moderation state is returned unchanged. -/
theorem bot_or_dm_noop (st : ModState) (g : Option Guild) (a : AccountId)
    (b hi : Bool) (now : Int) (dExn tExn kExn : Option Exn) :
    on_message st g a true hi now dExn tExn kExn = .ok (st, []) ∧
    on_message st none a b hi now dExn tExn kExn = .ok (st, []) := by
  constructor
  · rfl
  · cases b <;> rfl

/-- Every actor returned by the audit scan comes from a fresh, target-
matching entry of the page. -/
theorem scanAuditEntries_sound (now w : Int) (tid : Option Int)
    (entries : List AuditEntry) (a : AccountId)
    (h : scanAuditEntries now w tid entries = some a) :
    ∃ e ∈ entries, e.user_id = some a ∧ entryStale now w e = false ∧
      targetPasses tid e = true := by
  induction entries with
  | nil => simp [scanAuditEntries] at h
  | cons e rest ih =>
    rw [scanAuditEntries] at h
    by_cases hs : entryStale now w e = true
    · rw [if_pos hs] at h
      obtain ⟨e', he', hprop⟩ := ih h
      exact ⟨e', List.mem_cons_of_mem _ he', hprop⟩
    · rw [if_neg hs] at h
      by_cases ht : targetPasses tid e = true
      · rw [if_pos ht] at h
        exact ⟨e, List.mem_cons_self _ _, h, Bool.not_eq_true _ ▸ hs, ht⟩
      · rw [if_neg ht] at h
        obtain ⟨e', he', hprop⟩ := ih h
        exact ⟨e', List.mem_cons_of_mem _ he', hprop⟩

/-- When every entry of the page is stale or fails the target test, the
scan returns None. -/
theorem scanAuditEntries_none (now w : Int) (tid : Option Int)
    (entries : List AuditEntry)
    (h : ∀ e ∈ entries, entryStale now w e = true ∨ targetPasses tid e = false) :
    scanAuditEntries now w tid entries = none := by
  induction entries with
  | nil => rfl
  | cons e rest ih =>
    rw [scanAuditEntries]
    rcases h e (List.mem_cons_self _ _) with hs | ht
    · rw [if_pos hs]
      exact ih fun e' he' => h e' (List.mem_cons_of_mem _ he')
    · by_cases hs : entryStale now w e = true
      · rw [if_pos hs]
        exact ih fun e' he' => h e' (List.mem_cons_of_mem _ he')
      · rw [if_neg hs, if_neg (by simp [ht])]
        exact ih fun e' he' => h e' (List.mem_cons_of_mem _ he')

/-- C5: audit attribution never returns the actor of a record older than
the freshness bound: any returned actor comes from an entry of the page
that is fresh (and matches the requested target), and the result is None
both when the directory call fails and when no fresh matching entry
exists. -/
theorem audit_attribution_freshness (entries : List AuditEntry)
    (auditExn : Option Exn) (now : Int) (tid : Option Int) (w : Int) :
    (∀ a, find_audit_actor entries auditExn now tid w = some a →
      ∃ e ∈ entries, e.user_id = some a ∧ entryStale now w e = false ∧
        targetPasses tid e = true) ∧
    (∀ ex, auditExn = some ex → find_audit_actor entries auditExn now tid w = none) ∧
    ((∀ e ∈ entries, entryStale now w e = true ∨ targetPasses tid e = false) →
      find_audit_actor entries auditExn now tid w = none) := by
  refine ⟨?_, ?_, ?_⟩
  · intro a h
    rcases auditExn with _ | ex
    · exact scanAuditEntries_sound now w tid entries a h
    · cases ex <;> simp [find_audit_actor] at h
  · intro ex hex
    subst hex
    cases ex <;> rfl
  · intro h
    rcases auditExn with _ | ex
    · exact scanAuditEntries_none now w tid entries h
    · cases ex <;> rfl

/-- Witness for C5: a record 100 seconds old matching the requested
target exactly is not attributed (freshness bound 20 seconds). -/
theorem audit_attribution_freshness_witness :
    find_audit_actor [⟨some 0, some 7, some 42⟩] none 100 (some 7) 20 = none :=
  (audit_attribution_freshness [⟨some 0, some 7, some 42⟩] none 100 (some 7) 20).2.2
    (by
      intro e he
      rw [List.mem_singleton] at he
      subst he
      left
      decide)

/-- Closed form of countWebhookViolation: it always returns normally,
the counter is incremented (and reset at the threshold), and the kick is
issued exactly when the threshold is reached and the actor is still a
member. -/
theorem countWebhookViolation_ok (g : Guild) (st : AccountId → Nat)
    (a : AccountId) (kExn : Option Exn) :
    countWebhookViolation g st a kExn =
      .ok (if WEBHOOK_MAX_ATTEMPTS ≤ st a + 1 then
             Function.update (Function.update st a (st a + 1)) a 0
           else Function.update st a (st a + 1),
           if WEBHOOK_MAX_ATTEMPTS ≤ st a + 1 then
             (match g.get_member a with
              | some m => if (g.get_member m).isSome then [PlatformCall.kick m webhookKickReason] else []
              | none => [])
           else []) := by
  rw [countWebhookViolation]
  simp only [Function.update_same]
  split
  · rcases hm : g.get_member a with _ | m
    · rfl
    · simp [safe_kick_ok]
  · rfl

/-- C6: for one account starting at count 0 and still a member, the
first two recorded webhook violations produce counts 1 and 2 with no
kick; the third reaches the threshold, a kick of the actor is issued,
and the counter is reset to 0, so a fourth violation counts 1, not 4. -/
theorem webhook_three_strikes (g : Guild) (st : AccountId → Nat) (a : AccountId)
    (k1 k2 k3 k4 : Option Exn)
    (h0 : st a = 0) (hm : g.memberIds.contains a = true) :
    ∃ st1 st2 st3 st4,
      countWebhookViolation g st a k1 = .ok (st1, []) ∧ st1 a = 1 ∧
      countWebhookViolation g st1 a k2 = .ok (st2, []) ∧ st2 a = 2 ∧
      countWebhookViolation g st2 a k3 =
        .ok (st3, [PlatformCall.kick a webhookKickReason]) ∧ st3 a = 0 ∧
      countWebhookViolation g st3 a k4 = .ok (st4, []) ∧ st4 a = 1 := by
  have hg : g.get_member a = some a := by
    rw [Guild.get_member, if_pos hm]
  set st1 := Function.update st a (st a + 1) with hst1
  have h1 : st1 a = 1 := by simp [hst1, h0]
  set st2 := Function.update st1 a (st1 a + 1) with hst2
  have h2 : st2 a = 2 := by simp [hst2, h1]
  set st3 := Function.update (Function.update st2 a (st2 a + 1)) a 0 with hst3
  have h3 : st3 a = 0 := by simp [hst3]
  set st4 := Function.update st3 a (st3 a + 1) with hst4
  have h4 : st4 a = 1 := by simp [hst4, h3]
  refine ⟨st1, st2, st3, st4, ?_, h1, ?_, h2, ?_, h3, ?_, h4⟩
  · rw [countWebhookViolation_ok,
      if_neg (by simp [WEBHOOK_MAX_ATTEMPTS, h0]),
      if_neg (by simp [WEBHOOK_MAX_ATTEMPTS, h0])]
  · rw [countWebhookViolation_ok,
      if_neg (by simp [WEBHOOK_MAX_ATTEMPTS, h1]),
      if_neg (by simp [WEBHOOK_MAX_ATTEMPTS, h1])]
  · rw [countWebhookViolation_ok,
      if_pos (by simp [WEBHOOK_MAX_ATTEMPTS, h2]),
      if_pos (by simp [WEBHOOK_MAX_ATTEMPTS, h2]), hg]
    simp [hg]
    simp [hst3, hst2, Function.update_idem]
  · rw [countWebhookViolation_ok,
      if_neg (by simp [WEBHOOK_MAX_ATTEMPTS, h3]),
      if_neg (by simp [WEBHOOK_MAX_ATTEMPTS, h3])]

/-- Witness for C6: the three-strikes escalation at a concrete guild and
account. -/
theorem webhook_three_strikes_witness :
    ∃ st1 st2 st3 st4,
      countWebhookViolation ⟨[5]⟩ (fun _ => 0) 5 none = .ok (st1, []) ∧ st1 5 = 1 ∧
      countWebhookViolation ⟨[5]⟩ st1 5 none = .ok (st2, []) ∧ st2 5 = 2 ∧
      countWebhookViolation ⟨[5]⟩ st2 5 none =
        .ok (st3, [PlatformCall.kick 5 webhookKickReason]) ∧ st3 5 = 0 ∧
      countWebhookViolation ⟨[5]⟩ st3 5 none = .ok (st4, []) ∧ st4 5 = 1 :=
  webhook_three_strikes ⟨[5]⟩ (fun _ => 0) 5 none none none none rfl (by decide)

/-- C10: a fresh webhook_create record by an untrusted actor always
advances that actor's violation counter (to the increment, or to 0 with
the threshold reached), for every outcome of the webhook lookup and
delete calls: a failed or impossible deletion never blocks the
escalation. -/
theorem webhook_count_despite_failure (g : Guild) (st : AccountId → Nat)
    (e : WebhookEntry) (env : EntryEnv) (a : AccountId) (w : Int)
    (hf : webhookEntryStale env.now e = false)
    (ha : e.user_id = some a) (ht : e.target_webhook_id = some w)
    (hw : is_whitelisted a = false) :
    ∃ st' calls, processWebhookEntry g st e env = .ok (st', calls) ∧
      ((st a + 1 < WEBHOOK_MAX_ATTEMPTS → st' a = st a + 1) ∧
       (WEBHOOK_MAX_ATTEMPTS ≤ st a + 1 → st' a = 0)) := by
  rw [processWebhookEntry, if_neg (by simp [hf]), ha, ht]
  simp only [hw, Bool.false_eq_true, if_false]
  rw [countWebhookViolation_ok]
  by_cases h3 : WEBHOOK_MAX_ATTEMPTS ≤ st a + 1
  · rw [if_pos h3, if_pos h3]
    refine ⟨_, _, rfl, fun hlt => absurd h3 (by omega), fun _ => ?_⟩
    simp
  · rw [if_neg h3, if_neg h3]
    refine ⟨_, _, rfl, fun _ => ?_, fun hge => absurd hge h3⟩
    simp

/-- Witness for C10: the channel webhook listing fails with Forbidden,
so the webhook cannot be deleted, yet the counter still advances. -/
theorem webhook_count_despite_failure_witness :
    ∃ st' calls,
      processWebhookEntry ⟨[]⟩ (fun _ => 0) ⟨some 0, some 9, some 100⟩
        ⟨5, Except.error Exn.forbidden, [], none⟩ = .ok (st', calls) ∧
      (((0 : Nat) + 1 < WEBHOOK_MAX_ATTEMPTS → st' 9 = 0 + 1) ∧
       (WEBHOOK_MAX_ATTEMPTS ≤ (0 : Nat) + 1 → st' 9 = 0)) :=
  webhook_count_despite_failure ⟨[]⟩ (fun _ => 0) ⟨some 0, some 9, some 100⟩
    ⟨5, Except.error Exn.forbidden, [], none⟩ 9 100 (by decide) rfl rfl (by decide)

/-- Below the threshold, an invite post by an untrusted author only
deletes the message and records the timestamp. -/
theorem on_message_below (st : ModState) (g : Guild) (a : AccountId) (now : Int)
    (dExn tExn kExn : Option Exn)
    (hw : is_whitelisted a = false)
    (hlt : (stepPost (st.invite_events a) now).length < INVITE_MAX_IN_WINDOW) :
    on_message st (some g) a false true now dExn tExn kExn =
      .ok (⟨Function.update st.invite_events a (stepPost (st.invite_events a) now),
            st.webhook_attempts⟩, [PlatformCall.deleteMessage]) := by
  simp only [on_message, deleteMessageCall_ok, hw, Bool.false_eq_true, if_false, if_true]
  rw [if_neg (by omega)]

/-- At the threshold, an invite post by an untrusted author who is still
a member deletes the message, issues the timeout, and issues the
fallback kick exactly when the timeout call failed. -/
theorem on_message_hit (st : ModState) (g : Guild) (a : AccountId) (now : Int)
    (dExn tExn kExn : Option Exn)
    (hw : is_whitelisted a = false)
    (hge : INVITE_MAX_IN_WINDOW ≤ (stepPost (st.invite_events a) now).length)
    (hm : g.memberIds.contains a = true) :
    on_message st (some g) a false true now dExn tExn kExn =
      .ok (⟨Function.update st.invite_events a (stepPost (st.invite_events a) now),
            st.webhook_attempts⟩,
           PlatformCall.deleteMessage ::
             PlatformCall.timeout a TIMEOUT_DURATION inviteReason ::
             (match tExn with
              | none => []
              | some _ => [PlatformCall.kick a inviteReason])) := by
  have hg : g.get_member a = some a := by rw [Guild.get_member, if_pos hm]
  rcases tExn with _ | ex
  · simp [on_message, deleteMessageCall_ok, hw, hg, try_timeout_ok, if_pos hge]
  · cases ex <;>
      simp [on_message, deleteMessageCall_ok, hw, hg, try_timeout_ok, safe_kick_ok,
        if_pos hge]

/-- C4: in the invite-spam enforcement path the timeout is attempted
first; on success no kick is issued, on a permission or transient
failure of the timeout the kick is attempted instead, and for every
failure oracle (including a failing kick) the handler returns normally:
no exception escapes the enforcement path. -/
theorem invite_timeout_fallback (st : ModState) (g : Guild) (a : AccountId)
    (now : Int) (dExn tExn kExn : Option Exn)
    (hw : is_whitelisted a = false)
    (hge : INVITE_MAX_IN_WINDOW ≤ (stepPost (st.invite_events a) now).length)
    (hm : g.memberIds.contains a = true) :
    on_message st (some g) a false true now dExn tExn kExn =
      .ok (⟨Function.update st.invite_events a (stepPost (st.invite_events a) now),
            st.webhook_attempts⟩,
           PlatformCall.deleteMessage ::
             PlatformCall.timeout a TIMEOUT_DURATION inviteReason ::
             (match tExn with
              | none => []
              | some _ => [PlatformCall.kick a inviteReason])) :=
  on_message_hit st g a now dExn tExn kExn hw hge hm

/-- Witness for C4: a concrete run in which the timeout call fails with
Forbidden and the kick is issued instead, with no exception escaping. -/
theorem invite_timeout_fallback_witness :
    on_message ⟨fun _ => [0, 0, 0, 0], fun _ => 0⟩ (some ⟨[1]⟩) 1 false true 0
        none (some Exn.forbidden) none =
      .ok (⟨Function.update (fun _ => [0, 0, 0, 0]) 1
              (stepPost ([0, 0, 0, 0]) 0), fun _ => 0⟩,
           [PlatformCall.deleteMessage,
            PlatformCall.timeout 1 TIMEOUT_DURATION inviteReason,
            PlatformCall.kick 1 inviteReason]) :=
  invite_timeout_fallback ⟨fun _ => [0, 0, 0, 0], fun _ => 0⟩ ⟨[1]⟩ 1 0
    none (some Exn.forbidden) none (by decide) (by decide) (by decide)

/-- C1, counterexample to the claim as stated: the author below is in
WHITELIST_IDS, yet its invite-link message still triggers a delete call
(the delete in on_message precedes the whitelist check). -/
theorem whitelisted_invite_deleted_cex :
    is_whitelisted 235148962103951360 = true ∧
    on_message ⟨fun _ => [], fun _ => 0⟩ (some ⟨[235148962103951360]⟩)
        235148962103951360 false true 0 none none none =
      .ok (⟨fun _ => [], fun _ => 0⟩, [PlatformCall.deleteMessage]) :=
  ⟨by decide, rfl⟩

/-- C1, amended: a trusted account never triggers a timeout or a kick,
and a trusted attributed actor triggers no enforcement at all; however,
an invite-link message is deleted regardless of the author's trust.
Conjuncts: (1) on_message with a trusted author leaves the state
unchanged and issues at most the message delete; (2)-(3) the audit-kick
handlers and on_member_join issue nothing when the attributed actor is
trusted; (4) the webhook flow issues nothing and counts nothing for a
trusted creator. -/
theorem whitelist_no_enforcement :
    (∀ (st : ModState) (g : Guild) (a : AccountId) (hi : Bool) (now : Int)
       (dExn tExn kExn : Option Exn), is_whitelisted a = true →
       on_message st (some g) a false hi now dExn tExn kExn =
         .ok (st, if hi then [PlatformCall.deleteMessage] else [])) ∧
    (∀ (g : Guild) (entries : List AuditEntry) (ae : Option Exn) (now tid : Int)
       (r : String) (ke : Option Exn) (aid : AccountId),
       find_audit_actor entries ae now (some tid) 20 = some aid →
       is_whitelisted aid = true →
       auditKickHandler g entries ae now tid r ke = .ok []) ∧
    (∀ (g : Guild) (jid : AccountId) (entries : List AuditEntry) (ae : Option Exn)
       (now : Int) (k1 k2 : Option Exn) (aid : AccountId),
       find_audit_actor entries ae now (some jid) 20 = some aid →
       is_whitelisted aid = true →
       on_member_join g jid true entries ae now k1 k2 = .ok []) ∧
    (∀ (g : Guild) (st : AccountId → Nat) (e : WebhookEntry) (env : EntryEnv)
       (aid : AccountId), e.user_id = some aid → is_whitelisted aid = true →
       processWebhookEntry g st e env = .ok (st, [])) := by
  refine ⟨?_, ?_, ?_, ?_⟩
  · intro st g a hi now dExn tExn kExn hwl
    cases hi <;> simp [on_message, deleteMessageCall_ok, hwl]
  · intro g entries ae now tid r ke aid hfind hwl
    rw [auditKickHandler, hfind]
    simp [hwl]
  · intro g jid entries ae now k1 k2 aid hfind hwl
    rw [on_member_join]
    simp only [if_true]
    rw [hfind]
    simp [hwl]
  · intro g st e env aid ha hwl
    rw [processWebhookEntry]
    by_cases hs : webhookEntryStale env.now e = true
    · rw [if_pos hs]
    · rw [if_neg hs, ha]
      rcases e.target_webhook_id with _ | w
      · rfl
      · simp [hwl]

/-- Witness for C1 (amended): a trusted author's invite post is deleted
but the state is unchanged and no timeout or kick is issued. -/
theorem whitelist_no_enforcement_witness :
    on_message ⟨fun _ => [], fun _ => 0⟩ (some ⟨[]⟩) 557628352828014614
        false true 0 none none none =
      .ok (⟨fun _ => [], fun _ => 0⟩, [PlatformCall.deleteMessage]) :=
  whitelist_no_enforcement.1 ⟨fun _ => [], fun _ => 0⟩ ⟨[]⟩ 557628352828014614
    true 0 none none none (by decide)

/-- get_member returns some only for current members (and returns the
queried id). -/
theorem get_member_eq_some (g : Guild) (a m : AccountId)
    (h : g.get_member a = some m) :
    m = a ∧ g.memberIds.contains a = true := by
  rw [Guild.get_member] at h
  split at h
  · injection h with h
    exact ⟨h.symm, by assumption⟩
  · exact absurd h (by simp)

/-- safe_kick on None does nothing. -/
theorem safe_kick_ok_none (g : Guild) (r : String) (e : Option Exn) :
    safe_kick g none r e = .ok [] := rfl

/-- safe_kick on a concrete target issues the kick exactly when the
target is still a member. -/
theorem safe_kick_ok_some (g : Guild) (mid : AccountId) (r : String) (e : Option Exn) :
    safe_kick g (some mid) r e =
      .ok (if (g.get_member mid).isSome then [PlatformCall.kick mid r] else []) := by
  rw [safe_kick_ok]

/-- Every kick issued by safe_kick targets a current member. -/
theorem safe_kick_sound (g : Guild) (m : Option AccountId) (r : String)
    (e : Option Exn) (tr : List PlatformCall)
    (h : safe_kick g m r e = .ok tr) :
    ∀ c ∈ tr, punishTargetsMember g c := by
  rcases m with _ | mid
  · rw [safe_kick_ok_none] at h
    have h' := Except.ok.inj h
    subst h'
    intro c hc
    exact absurd hc (List.not_mem_nil c)
  · rw [safe_kick_ok_some] at h
    have h' := Except.ok.inj h
    subst h'
    intro c hc
    by_cases hm : (g.get_member mid).isSome = true
    · rw [if_pos hm] at hc
      rw [List.mem_singleton] at hc
      subst hc
      show g.memberIds.contains mid = true
      rw [Guild.get_member] at hm
      by_cases hc2 : g.memberIds.contains mid = true
      · exact hc2
      · rw [if_neg hc2] at hm
        exact absurd hm (by simp)
    · rw [if_neg hm] at hc
      exact absurd hc (List.not_mem_nil c)

/-- on_message with a trusted author: state unchanged, only the delete
(when an invite link is present). -/
theorem on_message_whitelisted (st : ModState) (g : Guild) (a : AccountId)
    (hi : Bool) (now : Int) (dExn tExn kExn : Option Exn)
    (hwl : is_whitelisted a = true) :
    on_message st (some g) a false hi now dExn tExn kExn =
      .ok (st, if hi then [PlatformCall.deleteMessage] else []) := by
  cases hi <;> simp [on_message, deleteMessageCall_ok, hwl]

/-- on_message over the threshold but with the author no longer a
member: only the delete is issued. -/
theorem on_message_over_nomember (st : ModState) (g : Guild) (a : AccountId)
    (now : Int) (dExn tExn kExn : Option Exn)
    (hw : is_whitelisted a = false)
    (hge : INVITE_MAX_IN_WINDOW ≤ (stepPost (st.invite_events a) now).length)
    (hgm : g.get_member a = none) :
    on_message st (some g) a false true now dExn tExn kExn =
      .ok (⟨Function.update st.invite_events a (stepPost (st.invite_events a) now),
            st.webhook_attempts⟩, [PlatformCall.deleteMessage]) := by
  simp only [on_message, deleteMessageCall_ok, hw, Bool.false_eq_true, if_false, if_true]
  rw [if_pos hge, hgm]

/-- Every timeout or kick issued by on_message targets a current member
of the guild. -/
theorem on_message_sound (st : ModState) (g : Guild) (a : AccountId) (b hi : Bool)
    (now : Int) (dExn tExn kExn : Option Exn) (st' : ModState)
    (tr : List PlatformCall)
    (h : on_message st (some g) a b hi now dExn tExn kExn = .ok (st', tr)) :
    ∀ c ∈ tr, punishTargetsMember g c := by
  cases b with
  | true =>
    have h' : (st, ([] : List PlatformCall)) = (st', tr) := Except.ok.inj h
    cases h'
    intro c hc
    exact absurd hc (List.not_mem_nil c)
  | false =>
    cases hi with
    | false =>
      have h' : (st, ([] : List PlatformCall)) = (st', tr) := Except.ok.inj h
      cases h'
      intro c hc
      exact absurd hc (List.not_mem_nil c)
    | true =>
      by_cases hwl : is_whitelisted a = true
      · rw [on_message_whitelisted st g a true now dExn tExn kExn hwl] at h
        have h' := Except.ok.inj h
        cases h'
        intro c hc
        have hc' : c ∈ [PlatformCall.deleteMessage] := hc
        rw [List.mem_singleton] at hc'
        subst hc'
        trivial
      · have hwl' : is_whitelisted a = false := by
          cases hq : is_whitelisted a
          · rfl
          · exact absurd hq hwl
        by_cases hth : INVITE_MAX_IN_WINDOW ≤ (stepPost (st.invite_events a) now).length
        · rcases hgm : g.get_member a with _ | m
          · rw [on_message_over_nomember st g a now dExn tExn kExn hwl' hth hgm] at h
            have h' := Except.ok.inj h
            cases h'
            intro c hc
            rw [List.mem_singleton] at hc
            subst hc
            trivial
          · obtain ⟨hma, hcont⟩ := get_member_eq_some g a m hgm
            subst hma
            rw [on_message_hit st g m now dExn tExn kExn hwl' hth hcont] at h
            have h' := Except.ok.inj h
            cases h'
            intro c hc
            rcases List.mem_cons.mp hc with hc1 | hc1
            · subst hc1
              trivial
            · rcases List.mem_cons.mp hc1 with hc2 | hc2
              · subst hc2
                exact hcont
              · rcases tExn with _ | ex
                · exact absurd hc2 (List.not_mem_nil c)
                · have hc3 : c ∈ [PlatformCall.kick m inviteReason] := hc2
                  rw [List.mem_singleton] at hc3
                  subst hc3
                  exact hcont
        · have hlt : (stepPost (st.invite_events a) now).length < INVITE_MAX_IN_WINDOW := by
            omega
          rw [on_message_below st g a now dExn tExn kExn hwl' hlt] at h
          have h' := Except.ok.inj h
          cases h'
          intro c hc
          rw [List.mem_singleton] at hc
          subst hc
          trivial

/-- auditKickHandler when attribution fails: no calls. -/
theorem auditKickHandler_eq_none (g : Guild) (entries : List AuditEntry)
    (ae : Option Exn) (now tid : Int) (r : String) (ke : Option Exn)
    (hf : find_audit_actor entries ae now (some tid) 20 = none) :
    auditKickHandler g entries ae now tid r ke = .ok [] := by
  rw [auditKickHandler, hf]

/-- auditKickHandler when attribution succeeds: the whitelist and
membership checks decide the kick. -/
theorem auditKickHandler_eq_some (g : Guild) (entries : List AuditEntry)
    (ae : Option Exn) (now tid : Int) (r : String) (ke : Option Exn)
    (aid : AccountId)
    (hf : find_audit_actor entries ae now (some tid) 20 = some aid) :
    auditKickHandler g entries ae now tid r ke =
      (if is_whitelisted aid then .ok []
       else
         match g.get_member aid with
         | none => .ok []
         | some m => safe_kick g (some m) r ke) := by
  rw [auditKickHandler, hf]

/-- Every kick issued by the audit-attribution handlers targets a
current member. -/
theorem auditKickHandler_sound (g : Guild) (entries : List AuditEntry)
    (ae : Option Exn) (now tid : Int) (r : String) (ke : Option Exn)
    (tr : List PlatformCall)
    (h : auditKickHandler g entries ae now tid r ke = .ok tr) :
    ∀ c ∈ tr, punishTargetsMember g c := by
  rcases hf : find_audit_actor entries ae now (some tid) 20 with _ | aid
  · rw [auditKickHandler_eq_none g entries ae now tid r ke hf] at h
    have h' := Except.ok.inj h
    subst h'
    intro c hc
    exact absurd hc (List.not_mem_nil c)
  · rw [auditKickHandler_eq_some g entries ae now tid r ke aid hf] at h
    by_cases hwl : is_whitelisted aid = true
    · rw [if_pos hwl] at h
      have h' := Except.ok.inj h
      subst h'
      intro c hc
      exact absurd hc (List.not_mem_nil c)
    · rw [if_neg hwl] at h
      rcases hgm : g.get_member aid with _ | m
      · rw [hgm] at h
        have h' := Except.ok.inj h
        subst h'
        intro c hc
        exact absurd hc (List.not_mem_nil c)
      · rw [hgm] at h
        exact safe_kick_sound g (some m) r ke tr h

/-- on_member_join for a bot whose inviter resolved and is untrusted:
the bot kick and then the inviter kick, each guarded by membership. -/
theorem on_member_join_eq (g : Guild) (jid : AccountId)
    (entries : List AuditEntry) (ae : Option Exn) (now : Int)
    (k1 k2 : Option Exn) (aid : AccountId)
    (hf : find_audit_actor entries ae now (some jid) 20 = some aid)
    (hwl : is_whitelisted aid = false) :
    on_member_join g jid true entries ae now k1 k2 =
      .ok ((if (g.get_member jid).isSome then
              [PlatformCall.kick jid "Nicht-whitelisteter Bot-Invite"] else []) ++
           (match g.get_member aid with
            | none => []
            | some m =>
              if (g.get_member m).isSome then
                [PlatformCall.kick m "Bot-Invite ohne Whitelist"] else [])) := by
  simp only [on_member_join, hf, hwl, safe_kick_ok_some, Bool.false_eq_true, if_false,
    if_true]
  rcases hgm : g.get_member aid with _ | m
  · simp [hgm]
  · simp [hgm, safe_kick_ok_some]

/-- Every kick issued by on_member_join targets a current member. -/
theorem on_member_join_sound (g : Guild) (jid : AccountId) (jb : Bool)
    (entries : List AuditEntry) (ae : Option Exn) (now : Int)
    (k1 k2 : Option Exn) (tr : List PlatformCall)
    (h : on_member_join g jid jb entries ae now k1 k2 = .ok tr) :
    ∀ c ∈ tr, punishTargetsMember g c := by
  cases jb with
  | false =>
    have h' := Except.ok.inj h
    subst h'
    intro c hc
    exact absurd hc (List.not_mem_nil c)
  | true =>
    rcases hf : find_audit_actor entries ae now (some jid) 20 with _ | aid
    · have he : on_member_join g jid true entries ae now k1 k2 = .ok [] := by
        simp only [on_member_join, hf, if_true]
      rw [he] at h
      have h' := Except.ok.inj h
      subst h'
      intro c hc
      exact absurd hc (List.not_mem_nil c)
    · by_cases hwl : is_whitelisted aid = true
      · have he : on_member_join g jid true entries ae now k1 k2 = .ok [] := by
          simp only [on_member_join, hf, hwl, if_true]
        rw [he] at h
        have h' := Except.ok.inj h
        subst h'
        intro c hc
        exact absurd hc (List.not_mem_nil c)
      · have hwl' : is_whitelisted aid = false := by
          cases hq : is_whitelisted aid
          · rfl
          · exact absurd hq hwl
        rw [on_member_join_eq g jid entries ae now k1 k2 aid hf hwl'] at h
        have h' := Except.ok.inj h
        subst h'
        intro c hc
        rw [List.mem_append] at hc
        rcases hc with hc | hc
        · exact safe_kick_sound g (some jid) "Nicht-whitelisteter Bot-Invite" k1
            _ (safe_kick_ok_some g jid _ k1) c hc
        · rcases hgm : g.get_member aid with _ | m
          · rw [hgm] at hc
            exact absurd hc (List.not_mem_nil c)
          · rw [hgm] at hc
            exact safe_kick_sound g (some m) "Bot-Invite ohne Whitelist" k2
              _ (safe_kick_ok_some g m _ k2) c hc

/-- Every kick issued by the webhook violation counter targets a current
member. -/
theorem countWebhookViolation_sound (g : Guild) (st : AccountId → Nat)
    (a : AccountId) (ke : Option Exn) (st' : AccountId → Nat)
    (tr : List PlatformCall)
    (h : countWebhookViolation g st a ke = .ok (st', tr)) :
    ∀ c ∈ tr, punishTargetsMember g c := by
  rw [countWebhookViolation_ok] at h
  have h' := Except.ok.inj h
  injection h' with h1 h2
  subst h2
  intro c hc
  by_cases h3 : WEBHOOK_MAX_ATTEMPTS ≤ st a + 1
  · rw [if_pos h3] at hc
    rcases hgm : g.get_member a with _ | m
    · rw [hgm] at hc
      exact absurd hc (List.not_mem_nil c)
    · rw [hgm] at hc
      obtain ⟨hma, hcont⟩ := get_member_eq_some g a m hgm
      by_cases hs : (g.get_member m).isSome = true
      · have hc' : c ∈ (if (g.get_member m).isSome = true then
            [PlatformCall.kick m webhookKickReason] else []) := hc
        rw [if_pos hs] at hc'
        rw [List.mem_singleton] at hc'
        subst hc'
        show g.memberIds.contains m = true
        rw [hma]
        exact hcont
      · have hc' : c ∈ (if (g.get_member m).isSome = true then
            [PlatformCall.kick m webhookKickReason] else []) := hc
        rw [if_neg hs] at hc'
        exact absurd hc' (List.not_mem_nil c)
  · rw [if_neg h3] at hc
    exact absurd hc (List.not_mem_nil c)

/-- C3: every enforcement call the bot issues — each kick (all kicks go
through safe_kick, which re-checks membership immediately before the
call) and the invite-spam timeout (guarded by the get_member check at
its only call site) — targets an account that is still a member of the
guild at the moment of the call. -/
theorem enforcement_requires_membership (g : Guild) :
    (∀ (m : Option AccountId) (r : String) (e : Option Exn)
       (tr : List PlatformCall), safe_kick g m r e = .ok tr →
       ∀ c ∈ tr, punishTargetsMember g c) ∧
    (∀ (st : ModState) (a : AccountId) (b hi : Bool) (now : Int)
       (dExn tExn kExn : Option Exn) (st' : ModState) (tr : List PlatformCall),
       on_message st (some g) a b hi now dExn tExn kExn = .ok (st', tr) →
       ∀ c ∈ tr, punishTargetsMember g c) ∧
    (∀ (entries : List AuditEntry) (ae : Option Exn) (now tid : Int)
       (r : String) (ke : Option Exn) (tr : List PlatformCall),
       auditKickHandler g entries ae now tid r ke = .ok tr →
       ∀ c ∈ tr, punishTargetsMember g c) ∧
    (∀ (jid : AccountId) (jb : Bool) (entries : List AuditEntry)
       (ae : Option Exn) (now : Int) (k1 k2 : Option Exn)
       (tr : List PlatformCall),
       on_member_join g jid jb entries ae now k1 k2 = .ok tr →
       ∀ c ∈ tr, punishTargetsMember g c) ∧
    (∀ (st : AccountId → Nat) (a : AccountId) (ke : Option Exn)
       (st' : AccountId → Nat) (tr : List PlatformCall),
       countWebhookViolation g st a ke = .ok (st', tr) →
       ∀ c ∈ tr, punishTargetsMember g c) :=
  ⟨fun m r e tr h => safe_kick_sound g m r e tr h,
   fun st a b hi now d t k st' tr h => on_message_sound st g a b hi now d t k st' tr h,
   fun entries ae now tid r ke tr h => auditKickHandler_sound g entries ae now tid r ke tr h,
   fun jid jb entries ae now k1 k2 tr h => on_member_join_sound g jid jb entries ae now k1 k2 tr h,
   fun st a ke st' tr h => countWebhookViolation_sound g st a ke st' tr h⟩

/-- Witness for C3: a concrete kick issued by safe_kick targets the
member 1 of the concrete guild. -/
theorem enforcement_requires_membership_witness :
    punishTargetsMember ⟨[1]⟩ (PlatformCall.kick 1 "r") :=
  (enforcement_requires_membership ⟨[1]⟩).1 (some 1) "r" none
    [PlatformCall.kick 1 "r"] rfl (PlatformCall.kick 1 "r") (List.mem_singleton.mpr rfl)

/-- Window membership is upward closed: if an earlier timestamp is in
the window, so is any later one. -/
theorem inWin_mono (m a b : Int) (hab : a ≤ b) (ha : inWin m a = true) :
    inWin m b = true := by
  simp only [inWin, decide_eq_true_eq] at *
  omega

/-- On a sorted deque the front purge equals filtering by the window. -/
theorem purgeWindow_eq_filter (now : Int) (xs : List Int)
    (hs : xs.Sorted (· ≤ ·)) :
    purgeWindow now xs = xs.filter (inWin now) := by
  induction xs with
  | nil => rfl
  | cons x rest ih =>
    rw [List.sorted_cons] at hs
    obtain ⟨hx, hrest⟩ := hs
    by_cases h : INVITE_WINDOW_SECONDS < now - x
    · rw [purgeWindow, if_pos h, ih hrest,
        List.filter_cons_of_neg (by simp only [inWin, decide_eq_true_eq]; omega)]
    · rw [purgeWindow, if_neg h,
        List.filter_cons_of_pos (by simp only [inWin, decide_eq_true_eq]; omega)]
      have : rest.filter (inWin now) = rest := by
        rw [List.filter_eq_self]
        intro t ht
        simp only [inWin, decide_eq_true_eq]
        have := hx t ht
        omega
      rw [this]

/-- lastN of a short list is the list itself. -/
theorem lastN_of_le (n : Nat) (xs : List Int) (h : xs.length ≤ n) :
    lastN n xs = xs := by
  rw [lastN, Nat.sub_eq_zero_of_le h, List.drop_zero]

/-- Length of lastN. -/
theorem lastN_length (n : Nat) (xs : List Int) :
    (lastN n xs).length = min xs.length n := by
  rw [lastN, List.length_drop]
  omega

/-- lastN skips the head of a list longer than n. -/
theorem lastN_cons (k : Nat) (x : Int) (rest : List Int) (h : k ≤ rest.length) :
    lastN k (x :: rest) = lastN k rest := by
  rw [lastN, lastN, List.length_cons]
  have h1 : rest.length + 1 - k = (rest.length - k) + 1 := by omega
  rw [h1, List.drop_succ_cons]

/-- lastN and a final append. -/
theorem lastN_append_one (k : Nat) (xs : List Int) (v : Int) :
    lastN (k + 1) (xs ++ [v]) = lastN k xs ++ [v] := by
  rw [lastN, lastN, List.length_append, List.length_singleton]
  have h1 : xs.length + 1 - (k + 1) = xs.length - k := by omega
  rw [h1, List.drop_append_of_le_length (by omega)]

/-- On a sorted list, filtering by the (upward closed) window commutes
with taking the last k elements. -/
theorem filter_lastN (m : Int) (k : Nat) (xs : List Int)
    (hs : xs.Sorted (· ≤ ·)) :
    (lastN k xs).filter (inWin m) = lastN k (xs.filter (inWin m)) := by
  induction xs with
  | nil => simp [lastN]
  | cons x rest ih =>
    rw [List.sorted_cons] at hs
    obtain ⟨hx, hrest⟩ := hs
    by_cases hk : (x :: rest).length ≤ k
    · rw [lastN_of_le _ _ hk, lastN_of_le _ _ (le_trans (List.length_filter_le _ _) hk)]
    · rw [List.length_cons] at hk
      have hk' : k ≤ rest.length := by omega
      rw [lastN_cons k x rest hk', ih hrest]
      by_cases hpx : inWin m x = true
      · rw [List.filter_cons_of_pos hpx]
        have hrf : rest.filter (inWin m) = rest := by
          rw [List.filter_eq_self]
          exact fun t ht => inWin_mono m x t (hx t ht) hpx
        rw [hrf, lastN_cons k x rest hk']
      · rw [List.filter_cons_of_neg (by simp [hpx])]

/-- Appending to the (already purged, capacity-bounded) deque: the
deque holds the last DEQUE_MAXLEN window entries, so the append keeps
the last DEQUE_MAXLEN - 1 of them and adds the new timestamp. -/
theorem dequeAppend_lastN (F : List Int) (v : Int) :
    dequeAppend (lastN DEQUE_MAXLEN F) v = lastN (DEQUE_MAXLEN - 1) F ++ [v] := by
  by_cases h : DEQUE_MAXLEN ≤ F.length
  · have hlen : (lastN DEQUE_MAXLEN F).length = DEQUE_MAXLEN := by
      rw [lastN_length]
      omega
    rw [dequeAppend, if_pos (by omega)]
    rw [lastN, lastN, List.drop_drop]
    have : F.length - DEQUE_MAXLEN + 1 = F.length - (DEQUE_MAXLEN - 1) := by
      have hD : 0 < DEQUE_MAXLEN := by rw [DEQUE_MAXLEN]; omega
      omega
    rw [this]
  · have hlt : F.length < DEQUE_MAXLEN := by omega
    rw [dequeAppend, if_neg (by rw [lastN_length]; omega),
      lastN_of_le _ _ (by omega), lastN_of_le _ _ (by omega)]

/-- Unfolding one step of runPosts from the right. -/
theorem runPosts_concat (ts : List Int) (v : Int) :
    runPosts (ts ++ [v]) = stepPost (runPosts ts) v := by
  rw [runPosts, runPosts, List.foldl_append]
  rfl

/-- After a sorted sequence of posts, the deque holds exactly the last
DEQUE_MAXLEN timestamps that are within the window of the latest post. -/
theorem runPosts_eq (ts : List Int) (hs : ts.Sorted (· ≤ ·)) :
    runPosts ts = lastN DEQUE_MAXLEN (ts.filter (inWin (ts.getLastD 0))) := by
  induction ts using List.reverseRecOn with
  | nil => rfl
  | append_singleton l v ih =>
    have hl : l.Sorted (· ≤ ·) := hs.sublist (List.sublist_append_left l [v])
    have hcross : ∀ x ∈ l, x ≤ v := by
      have hs' : List.Pairwise (· ≤ ·) (l ++ [v]) := hs
      rw [List.pairwise_append] at hs'
      exact fun x hx => hs'.2.2 x hx v (List.mem_singleton.mpr rfl)
    rw [runPosts_concat, ih hl, List.getLastD_concat]
    rcases List.eq_nil_or_concat l with rfl | ⟨l', m, rfl⟩
    · simp only [List.filter_nil, List.nil_append]
      rw [show lastN DEQUE_MAXLEN ([] : List Int) = [] by simp [lastN]]
      rw [stepPost, dequeAppend, if_neg (by simp [DEQUE_MAXLEN]), List.nil_append,
        purgeWindow, if_neg (by rw [INVITE_WINDOW_SECONDS]; omega),
        List.filter_cons_of_pos
          (by simp only [inWin, decide_eq_true_eq, INVITE_WINDOW_SECONDS]; omega),
        List.filter_nil, lastN_of_le _ _ (by simp [DEQUE_MAXLEN])]
    · simp only [List.concat_eq_append] at hs hl hcross ih ⊢
      have hm_mem : m ∈ l' ++ [m] := List.mem_append_right l' (List.mem_singleton.mpr rfl)
      have hmv : m ≤ v := hcross m hm_mem
      have hlast : (l' ++ [m]).getLastD 0 = m := List.getLastD_concat _ _ _
      rw [hlast]
      have hle_m : ∀ x ∈ l' ++ [m], x ≤ m := by
        intro x hx
        have hl' : List.Pairwise (· ≤ ·) (l' ++ [m]) := hl
        rw [List.pairwise_append] at hl'
        rcases List.mem_append.mp hx with hx | hx
        · exact hl'.2.2 x hx m (List.mem_singleton.mpr rfl)
        · rw [List.mem_singleton] at hx
          exact le_of_eq hx
      have hF_sorted : ((l' ++ [m]).filter (inWin m)).Sorted (· ≤ ·) :=
        hl.filter (inWin m)
      have hF_le : ∀ x ∈ (l' ++ [m]).filter (inWin m), x ≤ m := by
        intro x hx
        exact hle_m x (List.mem_of_mem_filter hx)
      set F := (l' ++ [m]).filter (inWin m) with hF
      -- left side: one step of the deque
      rw [stepPost, dequeAppend_lastN]
      have hsub : List.Sublist (lastN (DEQUE_MAXLEN - 1) F) F := by
        rw [lastN]
        exact List.drop_sublist _ _
      have hsorted_app : (lastN (DEQUE_MAXLEN - 1) F ++ [v]).Sorted (· ≤ ·) := by
        show List.Pairwise (· ≤ ·) (lastN (DEQUE_MAXLEN - 1) F ++ [v])
        rw [List.pairwise_append]
        refine ⟨hF_sorted.sublist hsub, List.pairwise_singleton _ _, ?_⟩
        intro x hx y hy
        rw [List.mem_singleton] at hy
        subst hy
        have hxF : x ∈ F := hsub.mem hx
        exact le_trans (hF_le x hxF) hmv
      rw [purgeWindow_eq_filter v _ hsorted_app, List.filter_append,
        List.filter_cons_of_pos
          (by simp only [inWin, decide_eq_true_eq, INVITE_WINDOW_SECONDS]; omega),
        List.filter_nil]
      rw [filter_lastN v (DEQUE_MAXLEN - 1) F hF_sorted]
      -- right side: filter of the extended list
      have hfv : (l' ++ [m]).filter (inWin v) = F.filter (inWin v) := by
        rw [hF, List.filter_filter]
        apply List.filter_congr
        intro x hx
        by_cases hvx : inWin v x = true
        · have hmx : inWin m x = true := by
            simp only [inWin, decide_eq_true_eq] at *
            omega
          rw [hvx, hmx]
          rfl
        · have hvx' : inWin v x = false := by
            cases hq : inWin v x
            · rfl
            · exact absurd hq hvx
          rw [hvx']
          rfl
      rw [List.filter_append, List.filter_cons_of_pos
        (by simp only [inWin, decide_eq_true_eq, INVITE_WINDOW_SECONDS]; omega),
        List.filter_nil, hfv]
      have hDD : DEQUE_MAXLEN = (DEQUE_MAXLEN - 1) + 1 := by rw [DEQUE_MAXLEN]
      rw [hDD, lastN_append_one]
      rfl

/-- A list whose consecutive elements are at least a window apart has at
most two elements inside one window. -/
theorem gap_window_len_le_two (m : Int) (xs : List Int)
    (hp : xs.Pairwise (fun a b : Int => a + INVITE_WINDOW_SECONDS ≤ b))
    (hw : ∀ x ∈ xs, m - x ≤ INVITE_WINDOW_SECONDS ∧ x ≤ m) :
    xs.length ≤ 2 := by
  rcases xs with _ | ⟨a, _ | ⟨b, _ | ⟨c, rest⟩⟩⟩
  · simp
  · simp
  · simp
  · exfalso
    rw [List.pairwise_cons] at hp
    obtain ⟨hab, hp2⟩ := hp
    rw [List.pairwise_cons] at hp2
    obtain ⟨hbc, _⟩ := hp2
    have h1 := hab b (List.mem_cons_self _ _)
    have h2 := hbc c (List.mem_cons_self _ _)
    have ha := hw a (List.mem_cons_self _ _)
    have hc := hw c (List.mem_cons_of_mem _ (List.mem_cons_of_mem _ (List.mem_cons_self _ _)))
    simp only [INVITE_WINDOW_SECONDS] at h1 h2 ha hc
    omega

/-- C2: after record_post appends the new timestamp and purges entries
older than the 15-second retention from the front, is_over_threshold is
true iff at least INVITE_MAX_IN_WINDOW timestamps of the post sequence
lie within the trailing INVITE_WINDOW_SECONDS of the latest post; in
particular, posts spaced at least the window apart never reach the
threshold. -/
theorem invite_window_threshold_iff (ts : List Int) (m : Int)
    (hs : (ts ++ [m]).Sorted (· ≤ ·)) :
    (is_over_threshold (runPosts (ts ++ [m])) = true ↔
      INVITE_MAX_IN_WINDOW ≤ ((ts ++ [m]).filter (inWin m)).length) ∧
    (List.Chain' (fun a b : Int => a + INVITE_WINDOW_SECONDS ≤ b) (ts ++ [m]) →
      is_over_threshold (runPosts (ts ++ [m])) = false) := by
  have hrun := runPosts_eq (ts ++ [m]) hs
  rw [List.getLastD_concat] at hrun
  have hlen : (runPosts (ts ++ [m])).length =
      min ((ts ++ [m]).filter (inWin m)).length DEQUE_MAXLEN := by
    rw [hrun, lastN_length]
  constructor
  · simp only [is_over_threshold, decide_eq_true_eq, hlen, INVITE_MAX_IN_WINDOW,
      DEQUE_MAXLEN]
    omega
  · intro hchain
    haveI : IsTrans Int (fun a b : Int => a + INVITE_WINDOW_SECONDS ≤ b) :=
      ⟨fun a b c hab hbc => by
        simp only [INVITE_WINDOW_SECONDS] at *
        omega⟩
    have hpair : (ts ++ [m]).Pairwise (fun a b : Int => a + INVITE_WINDOW_SECONDS ≤ b) :=
      List.chain'_iff_pairwise.mp hchain
    have hle_m : ∀ x ∈ ts ++ [m], x ≤ m := by
      intro x hx
      have hs' : List.Pairwise (· ≤ ·) (ts ++ [m]) := hs
      rw [List.pairwise_append] at hs'
      rcases List.mem_append.mp hx with hx | hx
      · exact hs'.2.2 x hx m (List.mem_singleton.mpr rfl)
      · rw [List.mem_singleton] at hx
        exact le_of_eq hx
    have hwin : ∀ x ∈ (ts ++ [m]).filter (inWin m),
        m - x ≤ INVITE_WINDOW_SECONDS ∧ x ≤ m := by
      intro x hx
      rw [List.mem_filter] at hx
      refine ⟨?_, hle_m x hx.1⟩
      have := hx.2
      simp only [inWin, decide_eq_true_eq] at this
      exact this
    have h2 : ((ts ++ [m]).filter (inWin m)).length ≤ 2 :=
      gap_window_len_le_two m _ (hpair.filter (inWin m)) hwin
    simp only [is_over_threshold, decide_eq_false_iff_not, hlen,
      INVITE_MAX_IN_WINDOW, DEQUE_MAXLEN]
    omega

/-- Witness for C2: five posts inside one window reach the threshold
(and the gap hypothesis of the second conjunct fails there). -/
theorem invite_window_threshold_iff_witness :
    (is_over_threshold (runPosts ([0, 1, 2, 3] ++ [4])) = true ↔
      INVITE_MAX_IN_WINDOW ≤ (([0, 1, 2, 3] ++ [(4 : Int)]).filter (inWin 4)).length) ∧
    (List.Chain' (fun a b : Int => a + INVITE_WINDOW_SECONDS ≤ b) ([0, 1, 2, 3] ++ [4]) →
      is_over_threshold (runPosts ([0, 1, 2, 3] ++ [4])) = false) :=
  invite_window_threshold_iff [0, 1, 2, 3] 4 (by decide)

/-- C7, counterexample to the claim as stated: three lookups for one key
arrive at 0s, 0.5s and 1.6s (in order); the stored-timestamp throttle
issues the queries at 0s, 1.5s and 1.6s, so the last two queries for the
same key are issued only 0.1s apart — under 1 second. -/
theorem audit_throttle_pair_cex :
    List.Chain' (· ≤ ·) [(0 : ℚ), 1/2, 8/5] ∧
    runThrottle none [(0 : ℚ), 1/2, 8/5] = [0, 3/2, 8/5] ∧
    ¬ ((3 : ℚ)/2 + 1 ≤ 8/5) := by
  refine ⟨?_, ?_, by norm_num⟩
  · rw [List.chain'_cons, List.chain'_cons]
    exact ⟨by norm_num, by norm_num, List.chain'_singleton _⟩
  · norm_num [runThrottle, auditRateLimitDelay]

/-- The throttled issue time is at least one second after the stored
timestamp of the previous lookup. -/
theorem auditRateLimitDelay_lb (s t : ℚ) (h : s ≤ t) :
    s + 1 ≤ auditRateLimitDelay (some s) t := by
  rw [auditRateLimitDelay]
  split
  · linarith
  · next h2 =>
      rw [not_lt] at h2
      linarith

/-- C7, amended: the rate limiter only spaces a query relative to the
RECORDED (pre-sleep) arrival time of the previous lookup for the key:
each query is issued at least 1 second after the stored timestamp of the
immediately preceding lookup, but two issued queries for the same key
can still be less than 1 second apart.  The chain below pairs each
arrival with its issue time. -/
theorem audit_throttle_spacing (ts : List ℚ) (st : Option ℚ)
    (hs : List.Chain' (· ≤ ·) ts) :
    List.Chain' (fun p q : ℚ × ℚ => p.1 + 1 ≤ q.2)
      (ts.zip (runThrottle st ts)) := by
  induction ts generalizing st with
  | nil => simp [runThrottle]
  | cons t rest ih =>
    rcases rest with _ | ⟨t2, rest2⟩
    · simp [runThrottle]
    · rw [List.chain'_cons] at hs
      rw [runThrottle,
        show runThrottle (some t) (t2 :: rest2) =
          auditRateLimitDelay (some t) t2 :: runThrottle (some t2) rest2 from rfl,
        List.zip_cons_cons, List.zip_cons_cons, List.chain'_cons]
      constructor
      · exact auditRateLimitDelay_lb t t2 hs.1
      · have hih := ih (some t) hs.2
        rw [show runThrottle (some t) (t2 :: rest2) =
              auditRateLimitDelay (some t) t2 :: runThrottle (some t2) rest2 from rfl,
          List.zip_cons_cons] at hih
        exact hih

/-- Witness for C7 (amended): two lookups one second apart. -/
theorem audit_throttle_spacing_witness :
    List.Chain' (fun p q : ℚ × ℚ => p.1 + 1 ≤ q.2)
      ([(0 : ℚ), 2].zip (runThrottle none [(0 : ℚ), 2])) :=
  audit_throttle_spacing [0, 2] none
    (by rw [List.chain'_cons]; exact ⟨by norm_num, List.chain'_singleton _⟩)

/-- A fresh post appended to a non-full deque whose entries are all
inside the window survives the purge whole. -/
theorem stepPost_keep (dq : List Int) (now : Int)
    (hlen : dq.length < DEQUE_MAXLEN)
    (hfresh : ∀ x ∈ dq, now - x ≤ INVITE_WINDOW_SECONDS) :
    stepPost dq now = dq ++ [now] := by
  rw [stepPost, dequeAppend, if_neg (by omega)]
  rcases dq with _ | ⟨x, rest⟩
  · rw [List.nil_append, purgeWindow, if_neg (by rw [INVITE_WINDOW_SECONDS]; omega)]
  · rw [List.cons_append, purgeWindow,
      if_neg (by have := hfresh x (List.mem_cons_self _ _); omega)]

/-- One step of runInviteSequence, given the values of the head message
and of the remaining run. -/
theorem runInviteSequence_cons (g : Guild) (a : AccountId)
    (dExn tExn kExn : Option Exn) (st st1 st2 : ModState) (t : Int)
    (rest : List Int) (tr : List PlatformCall) (trs : List (List PlatformCall))
    (h1 : on_message st (some g) a false true t dExn tExn kExn = .ok (st1, tr))
    (h2 : runInviteSequence g a dExn tExn kExn st1 rest = .ok (st2, trs)) :
    runInviteSequence g a dExn tExn kExn st (t :: rest) = .ok (st2, tr :: trs) := by
  simp only [runInviteSequence, h1, h2]

/-- C8: an untrusted member with an empty invite window posting
INVITE_MAX_IN_WINDOW invite links within 10 seconds: each of the five
messages triggers a delete call (whatever the delete outcome), and the
fifth post triggers a timeout of exactly TIMEOUT_DURATION = 3600 seconds
(one hour) whose reason string starts with "Invite-Spam". -/
theorem invite_spam_scenario (g : Guild) (a : AccountId) (st : ModState)
    (t1 t2 t3 t4 t5 : Int) (dExn kExn : Option Exn)
    (hw : is_whitelisted a = false)
    (hm : g.memberIds.contains a = true)
    (h0 : st.invite_events a = [])
    (h12 : t1 ≤ t2) (h23 : t2 ≤ t3) (h34 : t3 ≤ t4) (h45 : t4 ≤ t5)
    (hspan : t5 - t1 ≤ 10) :
    (∃ stf, runInviteSequence g a dExn none kExn st [t1, t2, t3, t4, t5] =
      .ok (stf,
        [[PlatformCall.deleteMessage], [PlatformCall.deleteMessage],
         [PlatformCall.deleteMessage], [PlatformCall.deleteMessage],
         [PlatformCall.deleteMessage,
          PlatformCall.timeout a TIMEOUT_DURATION inviteReason]])) ∧
    TIMEOUT_DURATION = 3600 ∧
    (∃ s, inviteReason = "Invite-Spam" ++ s) := by
  have e1 : stepPost (st.invite_events a) t1 = [t1] := by
    rw [h0, stepPost_keep [] t1 (by simp [DEQUE_MAXLEN])
      (by intro x hx; exact absurd hx (List.not_mem_nil x))]
    rfl
  have m1 := on_message_below st g a t1 dExn none kExn hw (by rw [e1]; simp [INVITE_MAX_IN_WINDOW])
  rw [e1] at m1
  set st1 : ModState := ⟨Function.update st.invite_events a [t1], st.webhook_attempts⟩
    with hst1
  have r1 : st1.invite_events a = [t1] := by
    rw [hst1]
    exact Function.update_same _ _ _
  have e2 : stepPost (st1.invite_events a) t2 = [t1, t2] := by
    rw [r1, stepPost_keep [t1] t2 (by simp [DEQUE_MAXLEN])
      (by
        intro x hx
        rw [List.mem_singleton] at hx
        subst hx
        rw [INVITE_WINDOW_SECONDS]
        omega)]
    rfl
  have m2 := on_message_below st1 g a t2 dExn none kExn hw (by rw [e2]; simp [INVITE_MAX_IN_WINDOW])
  rw [e2] at m2
  set st2 : ModState := ⟨Function.update st1.invite_events a [t1, t2],
    st1.webhook_attempts⟩ with hst2
  have r2 : st2.invite_events a = [t1, t2] := by
    rw [hst2]
    exact Function.update_same _ _ _
  have e3 : stepPost (st2.invite_events a) t3 = [t1, t2, t3] := by
    rw [r2, stepPost_keep [t1, t2] t3 (by simp [DEQUE_MAXLEN])
      (by
        intro x hx
        rw [INVITE_WINDOW_SECONDS]
        rcases List.mem_cons.mp hx with rfl | hx
        · omega
        · rw [List.mem_singleton] at hx
          subst hx
          omega)]
    rfl
  have m3 := on_message_below st2 g a t3 dExn none kExn hw (by rw [e3]; simp [INVITE_MAX_IN_WINDOW])
  rw [e3] at m3
  set st3 : ModState := ⟨Function.update st2.invite_events a [t1, t2, t3],
    st2.webhook_attempts⟩ with hst3
  have r3 : st3.invite_events a = [t1, t2, t3] := by
    rw [hst3]
    exact Function.update_same _ _ _
  have e4 : stepPost (st3.invite_events a) t4 = [t1, t2, t3, t4] := by
    rw [r3, stepPost_keep [t1, t2, t3] t4 (by simp [DEQUE_MAXLEN])
      (by
        intro x hx
        rw [INVITE_WINDOW_SECONDS]
        rcases List.mem_cons.mp hx with rfl | hx
        · omega
        · rcases List.mem_cons.mp hx with rfl | hx
          · omega
          · rw [List.mem_singleton] at hx
            subst hx
            omega)]
    rfl
  have m4 := on_message_below st3 g a t4 dExn none kExn hw (by rw [e4]; simp [INVITE_MAX_IN_WINDOW])
  rw [e4] at m4
  set st4 : ModState := ⟨Function.update st3.invite_events a [t1, t2, t3, t4],
    st3.webhook_attempts⟩ with hst4
  have r4 : st4.invite_events a = [t1, t2, t3, t4] := by
    rw [hst4]
    exact Function.update_same _ _ _
  have e5 : stepPost (st4.invite_events a) t5 = [t1, t2, t3, t4, t5] := by
    rw [r4, stepPost_keep [t1, t2, t3, t4] t5 (by simp [DEQUE_MAXLEN])
      (by
        intro x hx
        rw [INVITE_WINDOW_SECONDS]
        rcases List.mem_cons.mp hx with rfl | hx
        · omega
        · rcases List.mem_cons.mp hx with rfl | hx
          · omega
          · rcases List.mem_cons.mp hx with rfl | hx
            · omega
            · rw [List.mem_singleton] at hx
              subst hx
              omega)]
    rfl
  have m5 := on_message_hit st4 g a t5 dExn none kExn hw (by rw [e5]; simp [INVITE_MAX_IN_WINDOW]) hm
  rw [e5] at m5
  set st5 : ModState := ⟨Function.update st4.invite_events a [t1, t2, t3, t4, t5],
    st4.webhook_attempts⟩ with hst5
  have rr5 : runInviteSequence g a dExn none kExn st4 [t5] =
      .ok (st5, [[PlatformCall.deleteMessage,
                  PlatformCall.timeout a TIMEOUT_DURATION inviteReason]]) :=
    runInviteSequence_cons g a dExn none kExn st4 st5 st5 t5 [] _ [] m5 rfl
  have rr4 := runInviteSequence_cons g a dExn none kExn st3 st4 st5 t4 [t5] _ _ m4 rr5
  have rr3 := runInviteSequence_cons g a dExn none kExn st2 st3 st5 t3 [t4, t5] _ _ m3 rr4
  have rr2 := runInviteSequence_cons g a dExn none kExn st1 st2 st5 t2 [t3, t4, t5] _ _ m2 rr3
  have rr1 := runInviteSequence_cons g a dExn none kExn st st1 st5 t1 [t2, t3, t4, t5] _ _ m1 rr2
  exact ⟨⟨st5, rr1⟩, rfl, ⟨": ≥5 in 15s", rfl⟩⟩

/-- Witness for C8: the concrete five-post run at times 0..4. -/
theorem invite_spam_scenario_witness :
    (∃ stf, runInviteSequence ⟨[1]⟩ 1 none none none ⟨fun _ => [], fun _ => 0⟩
        [0, 1, 2, 3, 4] =
      .ok (stf,
        [[PlatformCall.deleteMessage], [PlatformCall.deleteMessage],
         [PlatformCall.deleteMessage], [PlatformCall.deleteMessage],
         [PlatformCall.deleteMessage,
          PlatformCall.timeout 1 TIMEOUT_DURATION inviteReason]])) ∧
    TIMEOUT_DURATION = 3600 ∧
    (∃ s, inviteReason = "Invite-Spam" ++ s) :=
  invite_spam_scenario ⟨[1]⟩ 1 ⟨fun _ => [], fun _ => 0⟩ 0 1 2 3 4 none none
    (by decide) (by decide) rfl (by omega) (by omega) (by omega) (by omega) (by omega)
